import Mathlib

/-!
Verification of the transactional virtual file tree
(`packages/qwik/src/cli/plugin-sdk/virtual-file-tree.ts`).

The TypeScript class `VirtualFileTree` is embedded shallowly:

* The real filesystem is a flat map `FS := String → Option String` from
  canonical relative path to file content (`none` = the path is absent /
  not a regular file).  Path resolution (`resolve`/`relative` against
  `rootDir`) is the identity on canonical relative keys; directories are
  not modelled (directory creation during commit has no observable effect
  on the flat map).
* JavaScript `Map`s (`originalStates`, `latestContent`) become insertion
  ordered association lists; `Map.set` on an existing key keeps the key's
  position, which `aset` mirrors.
* Methods become pure functions threading the `VFT` state (and, for
  `commit`/`rollback`, the filesystem) explicitly; `throw` becomes an
  `Except.error` result returned together with the state reached at the
  moment of the throw (the TypeScript methods mutate `this` up to that
  point, e.g. original-state capture survives a failed validation).
-/

namespace VFTree

/-- Operation kinds, from the `FileOperation.type` union in the source. -/
inductive OpType where
  | create
  | modify
  | delete
  | append
  | prepend
deriving DecidableEq

/-- One entry of the transaction queue (source `FileOperation`; the `id`
counter `op_${n}` is modelled by the number `n`; the `transformer` field is
never stored by `_addOperation` and is omitted). -/
structure FileOperation where
  id : Nat
  path : String
  type : OpType
  content : Option String
deriving DecidableEq

/-- Source `OriginalFileState` (the opaque `stats` metadata is dropped). -/
structure OriginalFileState where
  existed : Bool
  content : Option String
deriving DecidableEq

/-- Source `CurrentFileState` (projection entry). -/
structure CurrentFileState where
  content : String
  exists_ : Bool
deriving DecidableEq

/-- The real filesystem: canonical relative path to content of a regular
file, `none` when absent. -/
abbrev FS : Type := String → Option String

/-- Insertion-ordered association list standing in for a JS `Map`. -/
abbrev AList (α : Type) : Type := List (String × α)

/-- `Map.get`. -/
def alookup {α : Type} : AList α → String → Option α
  | [], _ => none
  | (k, v) :: rest, key => if k = key then some v else alookup rest key

/-- `Map.set`: replace in place when the key is present (JS `Map` keeps the
original insertion position), otherwise add at the end. -/
def aset {α : Type} : AList α → String → α → AList α
  | [], key, val => [(key, val)]
  | (k, v) :: rest, key, val =>
      if k = key then (k, val) :: rest else (k, v) :: aset rest key val

/-- The keys of an association list, in order. -/
def akeys {α : Type} (m : AList α) : List String := m.map Prod.fst

/-- The mutable state of one `VirtualFileTree` transaction
(`rootDir` is dropped: paths are already canonical relative keys). -/
structure VFT where
  operationQueue : List FileOperation
  originalStates : AList OriginalFileState
  latestContent : AList CurrentFileState
  isCommitted : Bool
  operationCounter : Nat
deriving DecidableEq

/-- The state right after construction / after the `initialize` reset. -/
def initVFT : VFT :=
  { operationQueue := []
    originalStates := []
    latestContent := []
    isCommitted := false
    operationCounter := 0 }

/-- `fs.promises.writeFile`. -/
def fsWrite (fs : FS) (p : String) (c : String) : FS :=
  fun q => if q = p then some c else fs q

/-- `fs.promises.unlink` with the "already absent" error swallowed. -/
def fsErase (fs : FS) (p : String) : FS :=
  fun q => if q = p then none else fs q

/-- The state a never-operated-on path contributes: its filesystem content
if it is a regular file, else empty/absent (the fallback branches of
`_updateLatestContent`). -/
def initState (fs : FS) (p : String) : CurrentFileState :=
  match fs p with
  | some c => { content := c, exists_ := true }
  | none => { content := "", exists_ := false }

/-- Source `fileExists`: cached projection entry first, else the disk. -/
def fileExists (fs : FS) (st : VFT) (path : String) : Bool :=
  match alookup st.latestContent path with
  | some cached => cached.exists_
  | none => (fs path).isSome

/-- Source `readFile`: cached projection entry first; on a cache miss the
disk content is read and cached; missing files raise. -/
def readFile (fs : FS) (st : VFT) (path : String) :
    Except String String × VFT :=
  match alookup st.latestContent path with
  | some cached =>
      if cached.exists_ then (Except.ok cached.content, st)
      else (Except.error ("File " ++ path ++ " does not exist"), st)
  | none =>
      match fs path with
      | some c =>
          let lc := aset st.latestContent path { content := c, exists_ := true }
          (Except.ok c, { st with latestContent := lc })
      | none => (Except.error ("File " ++ path ++ " does not exist"), st)

/-- The `switch (type)` of `_updateLatestContent`: how one queued operation
transforms a projection entry (`content || ''` is `Option.getD ""`;
`''` is falsy in JS, so the two agree on every input). -/
def applyOp (cur : CurrentFileState) (type : OpType) (content : Option String) :
    CurrentFileState :=
  match type with
  | .create => { content := content.getD "", exists_ := true }
  | .modify => { content := content.getD "", exists_ := cur.exists_ }
  | .append => { content := cur.content ++ content.getD "", exists_ := cur.exists_ }
  | .prepend => { content := content.getD "" ++ cur.content, exists_ := cur.exists_ }
  | .delete => { content := "", exists_ := false }

/-- Source `_updateLatestContent`: fetch the cached state (or the disk
state on a miss), apply the operation, store the result. -/
def updateLatestContent (fs : FS) (st : VFT) (path : String) (type : OpType)
    (content : Option String) : VFT :=
  let cur :=
    match alookup st.latestContent path with
    | some s => s
    | none => initState fs path
  { st with latestContent := aset st.latestContent path (applyOp cur type content) }

/-- What `_captureOriginalState` stores for a given disk state. -/
def mkOrig : Option String → OriginalFileState
  | some c => { existed := true, content := some c }
  | none => { existed := false, content := none }

/-- Source `_captureOriginalState`. -/
def captureOriginalState (fs : FS) (st : VFT) (path : String) : VFT :=
  { st with originalStates := aset st.originalStates path (mkOrig (fs path)) }

/-- The `if (!this.originalStates.has(...))` guard of `_addOperation`. -/
def captureIfAbsent (fs : FS) (st : VFT) (path : String) : VFT :=
  if (alookup st.originalStates path).isSome then st
  else captureOriginalState fs st path

/-- The operation name as interpolated into the
`Cannot ${type} file ...` error message. -/
def opName : OpType → String
  | .create => "create"
  | .modify => "modify"
  | .delete => "delete"
  | .append => "append"
  | .prepend => "prepend"

/-- Source `_addOperation`: capture original state if absent, validate
(create-conflict, then missing-file), update the projection, push the
operation.  On a validation failure the post-capture state is returned
with the error, exactly as the TypeScript method leaves `this`. -/
def addOperation (fs : FS) (st : VFT) (path : String) (type : OpType)
    (content : Option String) : Except String Unit × VFT :=
  let st1 := captureIfAbsent fs st path
  let currentExists := fileExists fs st1 path
  let originalState := (alookup st1.originalStates path).getD
    { existed := false, content := none }
  if type == OpType.create && (originalState.existed || currentExists) &&
      !((st1.operationQueue.filter (fun op => op.path == path)).any
          (fun op => op.type == OpType.delete)) then
    (Except.error ("Cannot create file " ++ path ++ ": file already exists"), st1)
  else if (type == OpType.modify || type == OpType.delete ||
      type == OpType.append || type == OpType.prepend) && !currentExists then
    (Except.error ("Cannot " ++ opName type ++ " file " ++ path ++
      ": file does not exist"), st1)
  else
    let st2 := updateLatestContent fs st1 path type content
    (Except.ok (),
     { st2 with
        operationQueue := st2.operationQueue ++
          [{ id := st2.operationCounter + 1, path := path, type := type,
             content := content }]
        operationCounter := st2.operationCounter + 1 })

/-- Source `createFile`. -/
def createFile (fs : FS) (st : VFT) (path content : String) :
    Except String Unit × VFT :=
  addOperation fs st path .create (some content)

/-- Source `modifyFile`. -/
def modifyFile (fs : FS) (st : VFT) (path content : String) :
    Except String Unit × VFT :=
  addOperation fs st path .modify (some content)

/-- Source `appendToFile`. -/
def appendToFile (fs : FS) (st : VFT) (path content : String) :
    Except String Unit × VFT :=
  addOperation fs st path .append (some content)

/-- Source `prependToFile`. -/
def prependToFile (fs : FS) (st : VFT) (path content : String) :
    Except String Unit × VFT :=
  addOperation fs st path .prepend (some content)

/-- Source `deleteFile`. -/
def deleteFile (fs : FS) (st : VFT) (path : String) :
    Except String Unit × VFT :=
  addOperation fs st path .delete none

/-- Source `overwriteFile`: modify if the file exists, else create. -/
def overwriteFile (fs : FS) (st : VFT) (path content : String) :
    Except String Unit × VFT :=
  addOperation fs st path (if fileExists fs st path then .modify else .create)
    (some content)

/-- Source `transformFile`: read (falling back to `''` on failure, keeping
the read's caching effect), transform, stage as `modify`. -/
def transformFile (fs : FS) (st : VFT) (path : String)
    (transformer : String → String) : Except String Unit × VFT :=
  let r := readFile fs st path
  let currentContent := match r.1 with
    | .ok c => c
    | .error _ => ""
  addOperation fs r.2 path .modify (some (transformer currentContent))

/-- Source `preview` (returns shallow copies; pure model: the queue). -/
def preview (st : VFT) : List FileOperation :=
  st.operationQueue

/-- Source `getTrackedFiles`. -/
def getTrackedFiles (st : VFT) : List String :=
  akeys st.originalStates

/-- The write loop of `commit`: for every projection entry in insertion
order, write the content when `exists`, else unlink (ignoring "already
absent"). -/
def commitWrites (fs : FS) : AList CurrentFileState → FS
  | [] => fs
  | ps :: rest =>
      commitWrites
        (if ps.2.exists_ then fsWrite fs ps.1 ps.2.content else fsErase fs ps.1)
        rest

/-- Source `commit`: at most once; materializes the projection onto disk.
Returns (result, filesystem after, state after); on the already-committed
error nothing is touched. -/
def commit (fs : FS) (st : VFT) : Except String Unit × FS × VFT :=
  if st.isCommitted then
    (Except.error "Transaction has already been committed", fs, st)
  else
    (Except.ok (), commitWrites fs st.latestContent,
     { st with isCommitted := true })

/-- The restore loop of `_restoreOriginalState`: rewrite the original
content (`content || ''`) when the file existed, else unlink (ignoring
"already absent"). -/
def restoreWrites (fs : FS) : AList OriginalFileState → FS
  | [] => fs
  | ps :: rest =>
      restoreWrites
        (if ps.2.existed then fsWrite fs ps.1 (ps.2.content.getD "")
         else fsErase fs ps.1)
        rest

/-- Source `rollback`: post-commit it restores every captured path and
resets all state (`_restoreOriginalState`); pre-commit it just clears the
queue and the projection cache. -/
def rollback (fs : FS) (st : VFT) : FS × VFT :=
  if st.isCommitted then
    (restoreWrites fs st.originalStates, initVFT)
  else
    (fs, { st with operationQueue := [], latestContent := [] })

/-- The `type` union of the `toFsUpdates` result entries. -/
inductive FsUpdateKind where
  | create
  | modify
  | delete
deriving DecidableEq

/-- One entry of the `toFsUpdates().files` list
(`Buffer.from(content, 'utf-8')` is the UTF-8 byte encoding). -/
structure FsUpdateFile where
  path : String
  content : List UInt8
  type : FsUpdateKind
deriving DecidableEq

/-- Source `toFsUpdates`: keep the projection entries with `exists=true`,
emit their content bytes, always with kind `modify`. -/
def toFsUpdates (st : VFT) : List FsUpdateFile :=
  (st.latestContent.filter (fun ps => ps.2.exists_)).map (fun ps =>
    { path := ps.1, content := ps.2.content.toUTF8.toList, type := .modify })

/-- Source `VirtualFileTreeCheckpoint`: deep copies of the four mutable
pieces of state taken at construction time. -/
structure VirtualFileTreeCheckpoint where
  savedOperations : List FileOperation
  savedOriginalStates : AList OriginalFileState
  savedLatestContent : AList CurrentFileState
  savedCounter : Nat
deriving DecidableEq

/-- Source `createCheckpoint` (the checkpoint constructor's copies). -/
def createCheckpoint (st : VFT) : VirtualFileTreeCheckpoint :=
  { savedOperations := st.operationQueue
    savedOriginalStates := st.originalStates
    savedLatestContent := st.latestContent
    savedCounter := st.operationCounter }

/-- Source `VirtualFileTreeCheckpoint.restore`: replace the live state
with the snapshot and force `isCommitted := false`. -/
def restoreCheckpoint (cp : VirtualFileTreeCheckpoint) : VFT :=
  { operationQueue := cp.savedOperations
    originalStates := cp.savedOriginalStates
    latestContent := cp.savedLatestContent
    isCommitted := false
    operationCounter := cp.savedCounter }

/-- One caller-visible staging/read call, for stating reachability. -/
inductive Cmd where
  | create (path content : String)
  | modify (path content : String)
  | append (path content : String)
  | prepend (path content : String)
  | delete (path : String)
  | overwrite (path content : String)
  | transform (path : String) (transformer : String → String)
  | read (path : String)

/-- Run one call against the state. -/
def runCmd (fs : FS) (st : VFT) : Cmd → Except String Unit × VFT
  | .create p c => createFile fs st p c
  | .modify p c => modifyFile fs st p c
  | .append p c => appendToFile fs st p c
  | .prepend p c => prependToFile fs st p c
  | .delete p => deleteFile fs st p
  | .overwrite p c => overwriteFile fs st p c
  | .transform p f => transformFile fs st p f
  | .read p =>
      let r := readFile fs st p
      (r.1.map (fun _ => ()), r.2)

/-- Run a sequence of calls; stop at the first error. -/
def runCmds (fs : FS) (st : VFT) : List Cmd → Except String VFT
  | [] => Except.ok st
  | c :: rest =>
      match runCmd fs st c with
      | (Except.ok _, st') => runCmds fs st' rest
      | (Except.error e, _) => Except.error e

/-! ## Association-list lemmas -/

theorem alookup_aset_self {α : Type} (m : AList α) (k : String) (v : α) :
    alookup (aset m k v) k = some v := by
  induction m with
  | nil => simp [aset, alookup]
  | cons hd tl ih =>
    obtain ⟨k', v'⟩ := hd
    by_cases h : k' = k <;> simp [aset, alookup, h, ih]

theorem alookup_aset_ne {α : Type} (m : AList α) (k k' : String) (v : α)
    (h : k' ≠ k) : alookup (aset m k v) k' = alookup m k' := by
  have h' : k ≠ k' := Ne.symm h
  induction m with
  | nil => simp [aset, alookup, h']
  | cons hd tl ih =>
    obtain ⟨k₀, v₀⟩ := hd
    by_cases h0 : k₀ = k
    · subst h0
      simp [aset, alookup, h']
    · by_cases h1 : k₀ = k'
      · subst h1
        simp [aset, alookup, h]
      · simp [aset, alookup, h0, h1, ih]

theorem alookup_some_mem {α : Type} {m : AList α} {k : String} {v : α}
    (h : alookup m k = some v) : (k, v) ∈ m := by
  induction m with
  | nil => simp [alookup] at h
  | cons hd tl ih =>
    obtain ⟨k', v'⟩ := hd
    by_cases h0 : k' = k
    · subst h0
      simp [alookup] at h
      simp [h]
    · simp [alookup, h0] at h
      exact List.mem_cons_of_mem _ (ih h)

theorem alookup_eq_none_iff {α : Type} (m : AList α) (k : String) :
    alookup m k = none ↔ k ∉ akeys m := by
  induction m with
  | nil => simp [alookup, akeys]
  | cons hd tl ih =>
    obtain ⟨k', v'⟩ := hd
    by_cases h0 : k' = k
    · subst h0
      simp [alookup, akeys]
    · rw [show alookup ((k', v') :: tl) k = alookup tl k by simp [alookup, h0], ih]
      simp [akeys, Ne.symm h0]

theorem akeys_aset_of_mem {α : Type} (m : AList α) (k : String) (v : α)
    (h : k ∈ akeys m) : akeys (aset m k v) = akeys m := by
  induction m with
  | nil => simp [akeys] at h
  | cons hd tl ih =>
    obtain ⟨k', v'⟩ := hd
    by_cases h0 : k' = k
    · simp [aset, akeys, h0]
    · have hk : k ∈ akeys tl := by
        simp [akeys] at h
        rcases h with h | h
        · exact absurd h.symm h0
        · simpa [akeys] using h
      simp [aset, akeys, h0]
      simpa [akeys] using ih hk

theorem akeys_aset_of_not_mem {α : Type} (m : AList α) (k : String) (v : α)
    (h : k ∉ akeys m) : akeys (aset m k v) = akeys m ++ [k] := by
  induction m with
  | nil => simp [aset, akeys]
  | cons hd tl ih =>
    obtain ⟨k', v'⟩ := hd
    simp [akeys] at h
    push_neg at h
    have h1 : k ∉ akeys tl := by simp [akeys]; exact h.2
    simp [aset, akeys, Ne.symm h.1]
    simpa [akeys] using ih h1

theorem akeys_aset_nodup {α : Type} (m : AList α) (k : String) (v : α)
    (h : (akeys m).Nodup) : (akeys (aset m k v)).Nodup := by
  by_cases hm : k ∈ akeys m
  · rwa [akeys_aset_of_mem m k v hm]
  · rw [akeys_aset_of_not_mem m k v hm]
    simp [List.nodup_append, h, hm]

/-! ## Lemmas about the commit / restore write loops -/

theorem fsWrite_self (fs : FS) (p c : String) : fsWrite fs p c p = some c := by
  simp [fsWrite]

theorem fsWrite_ne (fs : FS) (p c q : String) (h : q ≠ p) :
    fsWrite fs p c q = fs q := by
  simp [fsWrite, h]

theorem fsErase_self (fs : FS) (p : String) : fsErase fs p p = none := by
  simp [fsErase]

theorem fsErase_ne (fs : FS) (p q : String) (h : q ≠ p) :
    fsErase fs p q = fs q := by
  simp [fsErase, h]

theorem commitWrites_not_mem (fs : FS) (l : AList CurrentFileState)
    (p : String) (h : p ∉ akeys l) : commitWrites fs l p = fs p := by
  induction l generalizing fs with
  | nil => simp [commitWrites]
  | cons hd tl ih =>
    simp [akeys] at h
    push_neg at h
    have h2 : p ∉ akeys tl := by simp [akeys]; exact h.2
    rw [show commitWrites fs (hd :: tl) = commitWrites (if hd.2.exists_ then
      fsWrite fs hd.1 hd.2.content else fsErase fs hd.1) tl from rfl, ih _ h2]
    split <;> simp [fsWrite, fsErase, h.1]

theorem commitWrites_mem (fs : FS) (l : AList CurrentFileState)
    (p : String) (s : CurrentFileState) (hnd : (akeys l).Nodup)
    (h : (p, s) ∈ l) :
    commitWrites fs l p = if s.exists_ then some s.content else none := by
  induction l generalizing fs with
  | nil => simp at h
  | cons hd tl ih =>
    simp [akeys] at hnd
    rcases List.mem_cons.mp h with h | h
    · subst h
      rw [show commitWrites fs ((p, s) :: tl) = commitWrites (if s.exists_ then
        fsWrite fs p s.content else fsErase fs p) tl from rfl,
        commitWrites_not_mem _ _ _ (by simp [akeys]; exact hnd.1)]
      split <;> simp_all [fsWrite, fsErase]
    · rw [show commitWrites fs (hd :: tl) = commitWrites (if hd.2.exists_ then
        fsWrite fs hd.1 hd.2.content else fsErase fs hd.1) tl from rfl]
      exact ih _ hnd.2 h

theorem restoreWrites_not_mem (fs : FS) (l : AList OriginalFileState)
    (p : String) (h : p ∉ akeys l) : restoreWrites fs l p = fs p := by
  induction l generalizing fs with
  | nil => simp [restoreWrites]
  | cons hd tl ih =>
    simp [akeys] at h
    push_neg at h
    have h2 : p ∉ akeys tl := by simp [akeys]; exact h.2
    rw [show restoreWrites fs (hd :: tl) = restoreWrites (if hd.2.existed then
      fsWrite fs hd.1 (hd.2.content.getD "") else fsErase fs hd.1) tl from rfl,
      ih _ h2]
    split <;> simp [fsWrite, fsErase, h.1]

theorem restoreWrites_mem (fs : FS) (l : AList OriginalFileState)
    (p : String) (o : OriginalFileState) (hnd : (akeys l).Nodup)
    (h : (p, o) ∈ l) :
    restoreWrites fs l p =
      if o.existed then some (o.content.getD "") else none := by
  induction l generalizing fs with
  | nil => simp at h
  | cons hd tl ih =>
    simp [akeys] at hnd
    rcases List.mem_cons.mp h with h | h
    · subst h
      rw [show restoreWrites fs ((p, o) :: tl) = restoreWrites (if o.existed then
        fsWrite fs p (o.content.getD "") else fsErase fs p) tl from rfl,
        restoreWrites_not_mem _ _ _ (by simp [akeys]; exact hnd.1)]
      split <;> simp_all [fsWrite, fsErase]
    · rw [show restoreWrites fs (hd :: tl) = restoreWrites (if hd.2.existed then
        fsWrite fs hd.1 (hd.2.content.getD "") else fsErase fs hd.1) tl from rfl]
      exact ih _ hnd.2 h

/-! ## The projection-fold invariant -/

/-- The queued operations touching one path, in queue order. -/
def opsFor (p : String) (q : List FileOperation) : List (OpType × Option String) :=
  (q.filter (fun op => op.path == p)).map (fun op => (op.type, op.content))

/-- The spec's left-fold: apply the queued operations for a path, in order,
to the pre-transaction state of that path. -/
def foldOps (fs : FS) (p : String) (l : List (OpType × Option String)) :
    CurrentFileState :=
  l.foldl (fun cur tc => applyOp cur tc.1 tc.2) (initState fs p)

/-- The projection cache is exactly the fold of the queue: a cached entry
equals the fold, and a path with no cached entry has no queued operation. -/
def ProjInv (fs : FS) (st : VFT) : Prop :=
  ∀ p, alookup st.latestContent p =
        some (foldOps fs p (opsFor p st.operationQueue))
    ∨ (alookup st.latestContent p = none ∧ opsFor p st.operationQueue = [])

/-- Every captured original state is the pre-transaction disk truth. -/
def OrigInv (fs : FS) (st : VFT) : Prop :=
  ∀ p o, alookup st.originalStates p = some o → o = mkOrig (fs p)

/-- Well-formedness of every state reachable by staging/reading from a
fresh transaction against a fixed disk. -/
structure WF (fs : FS) (st : VFT) : Prop where
  proj : ProjInv fs st
  orig : OrigInv fs st
  lcNodup : (akeys st.latestContent).Nodup
  osNodup : (akeys st.originalStates).Nodup
  notCommitted : st.isCommitted = false

theorem WF_init (fs : FS) : WF fs initVFT := by
  refine ⟨fun p => Or.inr ⟨rfl, rfl⟩, fun p o h => ?_, ?_, ?_, rfl⟩
  · simp [initVFT, alookup] at h
  · simp [initVFT, akeys]
  · simp [initVFT, akeys]

theorem WF_readFile (fs : FS) (st : VFT) (p : String) (h : WF fs st) :
    WF fs (readFile fs st p).2 := by
  rcases hc : alookup st.latestContent p with _ | cached
  · rcases hfs : fs p with _ | c
    · simp only [readFile, hc, hfs]
      exact h
    · simp only [readFile, hc, hfs]
      refine ⟨?_, h.orig, ?_, h.osNodup, h.notCommitted⟩
      · intro q
        by_cases hq : q = p
        · subst hq
          left
          rw [alookup_aset_self]
          rcases h.proj q with hh | hh
          · rw [hc] at hh
            cases hh
          · rw [hh.2]
            simp [foldOps, initState, hfs]
        · rcases h.proj q with hh | hh
          · left
            rw [alookup_aset_ne _ _ _ _ hq]
            exact hh
          · right
            rw [alookup_aset_ne _ _ _ _ hq]
            exact hh
      · exact akeys_aset_nodup _ _ _ h.lcNodup
  · simp only [readFile, hc]
    split <;> exact h

theorem captureIfAbsent_queue (fs : FS) (st : VFT) (p : String) :
    (captureIfAbsent fs st p).operationQueue = st.operationQueue := by
  unfold captureIfAbsent captureOriginalState
  split <;> rfl

theorem captureIfAbsent_lc (fs : FS) (st : VFT) (p : String) :
    (captureIfAbsent fs st p).latestContent = st.latestContent := by
  unfold captureIfAbsent captureOriginalState
  split <;> rfl

theorem captureIfAbsent_committed (fs : FS) (st : VFT) (p : String) :
    (captureIfAbsent fs st p).isCommitted = st.isCommitted := by
  unfold captureIfAbsent captureOriginalState
  split <;> rfl

theorem captureIfAbsent_counter (fs : FS) (st : VFT) (p : String) :
    (captureIfAbsent fs st p).operationCounter = st.operationCounter := by
  unfold captureIfAbsent captureOriginalState
  split <;> rfl

theorem captureIfAbsent_lookup (fs : FS) (st : VFT) (p : String) :
    alookup (captureIfAbsent fs st p).originalStates p =
      some ((alookup st.originalStates p).getD (mkOrig (fs p))) := by
  unfold captureIfAbsent
  cases h : alookup st.originalStates p with
  | some o => simp [h]
  | none => simp [h, captureOriginalState, alookup_aset_self]

theorem captureIfAbsent_lookup_ne (fs : FS) (st : VFT) (p q : String)
    (h : q ≠ p) :
    alookup (captureIfAbsent fs st p).originalStates q =
      alookup st.originalStates q := by
  unfold captureIfAbsent
  split
  · rfl
  · simp [captureOriginalState, alookup_aset_ne _ _ _ _ h]

theorem WF_captureIfAbsent (fs : FS) (st : VFT) (p : String) (h : WF fs st) :
    WF fs (captureIfAbsent fs st p) := by
  unfold captureIfAbsent
  split
  · exact h
  · refine ⟨h.proj, ?_, h.lcNodup, ?_, h.notCommitted⟩
    · intro q o hq
      by_cases hqp : q = p
      · subst hqp
        rw [show (captureOriginalState fs st q).originalStates =
          aset st.originalStates q (mkOrig (fs q)) from rfl,
          alookup_aset_self] at hq
        exact (Option.some_inj.mp hq).symm
      · rw [show (captureOriginalState fs st p).originalStates =
          aset st.originalStates p (mkOrig (fs p)) from rfl,
          alookup_aset_ne _ _ _ _ hqp] at hq
        exact h.orig q o hq
    · exact akeys_aset_nodup _ _ _ h.osNodup

theorem WF_push_update (fs : FS) (st : VFT) (p : String) (t : OpType)
    (c : Option String) (hw : WF fs st) :
    WF fs
      (let st2 := updateLatestContent fs st p t c
       { st2 with
          operationQueue := st2.operationQueue ++
            [{ id := st2.operationCounter + 1, path := p, type := t,
               content := c }]
          operationCounter := st2.operationCounter + 1 }) := by
  refine ⟨?_, hw.orig, ?_, hw.osNodup, hw.notCommitted⟩
  · intro q
    simp only [updateLatestContent]
    by_cases hq : q = p
    · subst hq
      left
      rw [alookup_aset_self]
      have hops : opsFor q (st.operationQueue ++
          [{ id := st.operationCounter + 1, path := q, type := t,
             content := c }]) = opsFor q st.operationQueue ++ [(t, c)] := by
        simp [opsFor, List.filter_append]
      rw [hops]
      have hfold : ∀ l, foldOps fs q (l ++ [(t, c)]) =
          applyOp (foldOps fs q l) t c := by
        intro l
        simp [foldOps, List.foldl_append]
      rw [hfold]
      rcases hw.proj q with hh | hh
      · rw [hh]
      · rw [hh.1, hh.2]
        rfl
    · have hops : opsFor q (st.operationQueue ++
          [{ id := st.operationCounter + 1, path := p, type := t,
             content := c }]) = opsFor q st.operationQueue := by
        simp [opsFor, List.filter_append, Ne.symm hq]
      rw [alookup_aset_ne _ _ _ _ hq, hops]
      exact hw.proj q
  · exact akeys_aset_nodup _ _ _ hw.lcNodup

theorem WF_addOperation (fs : FS) (st : VFT) (p : String) (t : OpType)
    (c : Option String) (hw : WF fs st) :
    WF fs (addOperation fs st p t c).2 := by
  have h1 := WF_captureIfAbsent fs st p hw
  simp only [addOperation]
  split
  · exact h1
  · split
    · exact h1
    · have h2 := WF_push_update fs (captureIfAbsent fs st p) p t c h1
      simpa using h2

theorem WF_runCmd (fs : FS) (st : VFT) (cmd : Cmd) (hw : WF fs st) :
    WF fs (runCmd fs st cmd).2 := by
  cases cmd with
  | create p c => exact WF_addOperation fs st p .create (some c) hw
  | modify p c => exact WF_addOperation fs st p .modify (some c) hw
  | append p c => exact WF_addOperation fs st p .append (some c) hw
  | prepend p c => exact WF_addOperation fs st p .prepend (some c) hw
  | delete p => exact WF_addOperation fs st p .delete none hw
  | overwrite p c =>
      exact WF_addOperation fs st p
        (if fileExists fs st p then .modify else .create) (some c) hw
  | transform p f =>
      exact WF_addOperation fs (readFile fs st p).2 p .modify _
        (WF_readFile fs st p hw)
  | read p => exact WF_readFile fs st p hw

theorem WF_runCmds (fs : FS) (cmds : List Cmd) (st st' : VFT)
    (h : runCmds fs st cmds = Except.ok st') (hw : WF fs st) : WF fs st' := by
  induction cmds generalizing st with
  | nil =>
      simp [runCmds] at h
      exact h ▸ hw
  | cons cmd rest ih =>
      have hr := WF_runCmd fs st cmd hw
      simp only [runCmds] at h
      rcases hrc : runCmd fs st cmd with ⟨r, st1⟩
      rw [hrc] at h hr
      cases r with
      | ok _ => exact ih st1 h hr
      | error e => cases h

/-! ## Shape of `addOperation` results -/

theorem addOperation_error_state (fs : FS) (st : VFT) (p : String)
    (t : OpType) (c : Option String) (e : String) (st' : VFT)
    (h : addOperation fs st p t c = (Except.error e, st')) :
    st' = captureIfAbsent fs st p := by
  simp only [addOperation] at h
  split at h
  · exact (Prod.mk.injEq _ _ _ _ ▸ h).2.symm
  · split at h
    · exact (Prod.mk.injEq _ _ _ _ ▸ h).2.symm
    · simp at h

theorem addOperation_ok_state (fs : FS) (st : VFT) (p : String)
    (t : OpType) (c : Option String) (st' : VFT)
    (h : addOperation fs st p t c = (Except.ok (), st')) :
    st' =
      (let st2 := updateLatestContent fs (captureIfAbsent fs st p) p t c
       { st2 with
          operationQueue := st2.operationQueue ++
            [{ id := st2.operationCounter + 1, path := p, type := t,
               content := c }]
          operationCounter := st2.operationCounter + 1 }) := by
  simp only [addOperation] at h
  split at h
  · simp at h
  · split at h
    · simp at h
    · exact (Prod.mk.injEq _ _ _ _ ▸ h).2.symm

theorem fileExists_captureIfAbsent (fs : FS) (st : VFT) (p q : String) :
    fileExists fs (captureIfAbsent fs st p) q = fileExists fs st q := by
  simp [fileExists, captureIfAbsent_lc]

/-! ## Concrete instances used by the witnesses -/

/-- An empty disk. -/
def fsEmpty : FS := fun _ => none

/-- A disk holding exactly `a` with content `x`. -/
def fsA : FS := fun q => if q = "a" then some "x" else none

/-- A disk holding exactly `b` with content `q`. -/
def fsB : FS := fun q => if q = "b" then some "q" else none

/-- Extract the success state of a run (fresh state on failure). -/
def runOk (fs : FS) (cmds : List Cmd) : VFT :=
  match runCmds fs initVFT cmds with
  | Except.ok st => st
  | Except.error _ => initVFT

/-- Stage create `a`, modify `a`, append `a` on the empty disk. -/
def stCMA : VFT :=
  runOk fsEmpty [Cmd.create "a" "x", Cmd.modify "a" "y", Cmd.append "a" "!"]

/-- Stage create `a`, delete `b` on the disk holding `b`. -/
def stCD : VFT := runOk fsB [Cmd.create "a" "x", Cmd.delete "b"]

/-- Stage delete `a` on the disk holding `a`. -/
def stDel : VFT := runOk fsA [Cmd.delete "a"]

/-- Stage delete `a` then create `a` again on the disk holding `a`. -/
def stDelCreate : VFT := runOk fsA [Cmd.delete "a", Cmd.create "a" "y"]

/-! ## Claims -/

/-- C1: for every path and every sequence of successfully staged operations,
the projection entry for the path equals the left-fold of the queued
operations for that path, in queue order, applied to the pre-transaction
content (or absence) — create sets `{content, exists:true}`, modify replaces
content, append yields old + content, prepend yields content + old, delete
yields `{content:'', exists:false}` — and `readFile` returns exactly the
fold's content (or fails when the fold says the path does not exist). -/
theorem projection_fold_invariant (fs : FS) (cmds : List Cmd) (st : VFT)
    (h : runCmds fs initVFT cmds = Except.ok st) (p : String) :
    (∀ s, alookup st.latestContent p = some s →
        s = foldOps fs p (opsFor p st.operationQueue)) ∧
    (readFile fs st p).1 =
      (if (foldOps fs p (opsFor p st.operationQueue)).exists_ then
        Except.ok (foldOps fs p (opsFor p st.operationQueue)).content
      else Except.error ("File " ++ p ++ " does not exist")) := by
  have hw := WF_runCmds fs cmds initVFT st h (WF_init fs)
  rcases hw.proj p with hh | hh
  · constructor
    · intro s hs
      rw [hh] at hs
      exact (Option.some_inj.mp hs).symm
    · by_cases he : (foldOps fs p (opsFor p st.operationQueue)).exists_ <;>
        simp [readFile, hh, he]
  · constructor
    · intro s hs
      rw [hh.1] at hs
      cases hs
    · rw [hh.2]
      rcases hfs : fs p with _ | c <;>
        simp [readFile, hh.1, hfs, foldOps, initState]

/-- C1 witness: after create `x`, modify `y`, append `!` on one path of an
empty disk, `readFile` returns `y!`. -/
theorem projection_fold_invariant_witness :
    (readFile fsEmpty stCMA "a").1 = Except.ok "y!" := by
  have h := (projection_fold_invariant fsEmpty
    [Cmd.create "a" "x", Cmd.modify "a" "y", Cmd.append "a" "!"]
    stCMA (by rfl) "a").2
  rw [h]
  rfl

/-- C2: a commit on a reachable (hence uncommitted) state succeeds — staged
deletions of already-absent files included — and afterwards every path whose
projection entry has `exists=true` carries exactly the projected content on
disk, while every path whose entry has `exists=false` is absent from disk. -/
theorem commit_materializes_projection (fs : FS) (cmds : List Cmd) (st : VFT)
    (h : runCmds fs initVFT cmds = Except.ok st) :
    (commit fs st).1 = Except.ok () ∧
    ∀ p e, alookup st.latestContent p = some e →
      (commit fs st).2.1 p = (if e.exists_ then some e.content else none) := by
  have hw := WF_runCmds fs cmds initVFT st h (WF_init fs)
  constructor
  · simp [commit, hw.notCommitted]
  · intro p e he
    simp only [commit, hw.notCommitted, Bool.false_eq_true, if_false]
    exact commitWrites_mem fs st.latestContent p e hw.lcNodup
      (alookup_some_mem he)

/-- C2 witness: after staging create `a` and delete `b` (where `b` exists
on disk), commit puts `x` at `a` and removes `b`. -/
theorem commit_materializes_projection_witness :
    (commit fsB stCD).2.1 "a" = some "x" ∧
    (commit fsB stCD).2.1 "b" = none := by
  have h := commit_materializes_projection fsB
    [Cmd.create "a" "x", Cmd.delete "b"] stCD (by rfl)
  constructor
  · have h2 := h.2 "a" { content := "x", exists_ := true } (by rfl)
    rw [h2]
    rfl
  · have h2 := h.2 "b" { content := "", exists_ := false } (by rfl)
    rw [h2]
    rfl

/-- C5: committing twice fails — the run that produced a successful commit
leaves a state on which a second `commit` returns the already-committed
error, with the filesystem and the transaction state both returned
untouched, so the disk produced by the first commit is preserved. -/
theorem commit_at_most_once (fs : FS) (st : VFT) (fs1 : FS) (st1 : VFT)
    (h : commit fs st = (Except.ok (), fs1, st1)) :
    commit fs1 st1 =
      (Except.error "Transaction has already been committed", fs1, st1) := by
  cases hcom : st.isCommitted with
  | true => simp [commit, hcom] at h
  | false =>
      simp only [commit, hcom, Bool.false_eq_true, if_false,
        Prod.mk.injEq] at h
      have hst1 : st1 = { st with isCommitted := true } := h.2.2.symm
      have : st1.isCommitted = true := by rw [hst1]
      simp [commit, this]

/-- C5 witness: a second commit of the create-`a`/delete-`b` transaction
fails with the already-committed error and changes nothing. -/
theorem commit_at_most_once_witness :
    commit (commit fsB stCD).2.1 (commit fsB stCD).2.2 =
      (Except.error "Transaction has already been committed",
       (commit fsB stCD).2.1, (commit fsB stCD).2.2) :=
  commit_at_most_once fsB stCD (commit fsB stCD).2.1 (commit fsB stCD).2.2
    (by rfl)

/-- C6: `createCheckpoint` immediately followed by `restore` leaves
`preview()` unchanged, and restoring any checkpoint replaces the queue,
projection, counter and original-state store with the snapshotted copies
and forces `isCommitted := false`. -/
theorem checkpoint_restore_roundtrip (st : VFT)
    (cp : VirtualFileTreeCheckpoint) :
    preview (restoreCheckpoint (createCheckpoint st)) = preview st ∧
    (restoreCheckpoint cp).operationQueue = cp.savedOperations ∧
    (restoreCheckpoint cp).originalStates = cp.savedOriginalStates ∧
    (restoreCheckpoint cp).latestContent = cp.savedLatestContent ∧
    (restoreCheckpoint cp).operationCounter = cp.savedCounter ∧
    (restoreCheckpoint cp).isCommitted = false :=
  ⟨rfl, rfl, rfl, rfl, rfl, rfl⟩

/-- C7: pre-commit rollback is a pure discard: it returns the filesystem
unchanged (no reads or writes) with the queue and projection emptied, and
on a transaction with zero staged operations it is observationally a no-op
(every `readFile`/`fileExists` answer is unchanged). -/
theorem rollback_precommit_discards (fs : FS) (st : VFT)
    (h : st.isCommitted = false) :
    rollback fs st =
      (fs, { st with operationQueue := [], latestContent := [] }) ∧
    (st.operationQueue = [] → ProjInv fs st → ∀ p,
      (readFile fs (rollback fs st).2 p).1 = (readFile fs st p).1 ∧
      fileExists fs (rollback fs st).2 p = fileExists fs st p) := by
  have h1 : rollback fs st =
      (fs, { st with operationQueue := [], latestContent := [] }) := by
    simp [rollback, h]
  refine ⟨h1, ?_⟩
  intro hq hproj p
  rw [h1]
  rcases hproj p with hh | hh
  · rw [hq] at hh
    have hfold : foldOps fs p (opsFor p ([] : List FileOperation)) =
        initState fs p := rfl
    rw [hfold] at hh
    rcases hfs : fs p with _ | c <;>
      simp [readFile, fileExists, alookup, hh, hfs, initState]
  · rcases hfs : fs p with _ | c <;>
      simp [readFile, fileExists, alookup, hh.1, hfs]

/-- C7 witness: rollback after merely reading `a` leaves the disk alone and
changes no `readFile`/`fileExists` answer. -/
theorem rollback_precommit_discards_witness :
    (rollback fsA (readFile fsA initVFT "a").2).1 = fsA ∧
    (readFile fsA (rollback fsA (readFile fsA initVFT "a").2).2 "a").1 =
      (readFile fsA (readFile fsA initVFT "a").2 "a").1 := by
  have h := rollback_precommit_discards fsA (readFile fsA initVFT "a").2
    (by rfl)
  constructor
  · rw [h.1]
  · exact (h.2 (by rfl) (WF_readFile fsA initVFT "a" (WF_init fsA)).proj "a").1

/-- C3: post-commit rollback restores exactly: after a commit of a reachable
transaction, `rollback` rewrites every captured path to its pre-transaction
content (deleting it when it did not exist, ignoring already-absent errors),
never touches a path that was not captured in the original-state store, and
afterwards the queue, projection and original-state store are cleared, the
operation counter is reset, and `isCommitted` is cleared. -/
theorem rollback_postcommit_restores (fs : FS) (cmds : List Cmd)
    (st : VFT) (fs1 : FS) (st1 : VFT)
    (h : runCmds fs initVFT cmds = Except.ok st)
    (hc : commit fs st = (Except.ok (), fs1, st1)) :
    (∀ p, (alookup st.originalStates p).isSome →
        (rollback fs1 st1).1 p = fs p) ∧
    (∀ p, alookup st.originalStates p = none →
        (rollback fs1 st1).1 p = fs1 p) ∧
    (rollback fs1 st1).2 = initVFT := by
  have hw := WF_runCmds fs cmds initVFT st h (WF_init fs)
  simp only [commit, hw.notCommitted, Bool.false_eq_true, if_false,
    Prod.mk.injEq, true_and] at hc
  obtain ⟨hfs1, hst1⟩ := hc
  have hcommitted : st1.isCommitted = true := by rw [← hst1]
  have hos : st1.originalStates = st.originalStates := by rw [← hst1]
  have hb : rollback fs1 st1 =
      (restoreWrites fs1 st.originalStates, initVFT) := by
    simp [rollback, hcommitted, hos]
  refine ⟨?_, ?_, by rw [hb]⟩
  · intro p hp
    obtain ⟨o, ho⟩ := Option.isSome_iff_exists.mp hp
    have horig := hw.orig p o ho
    rw [hb]
    show restoreWrites fs1 st.originalStates p = fs p
    rw [restoreWrites_mem fs1 st.originalStates p o hw.osNodup
      (alookup_some_mem ho), horig]
    rcases hfs : fs p with _ | c <;> simp [mkOrig, hfs]
  · intro p hp
    rw [hb]
    exact restoreWrites_not_mem fs1 st.originalStates p
      ((alookup_eq_none_iff _ _).mp hp)

/-- C3 witness: rolling back the committed create-`a`/delete-`b` transaction
restores `b`, removes the committed `a` (absent before the transaction),
leaves the untouched path `z` alone, and resets the state. -/
theorem rollback_postcommit_restores_witness :
    (rollback (commit fsB stCD).2.1 (commit fsB stCD).2.2).1 "b" = fsB "b" ∧
    (rollback (commit fsB stCD).2.1 (commit fsB stCD).2.2).1 "a" = fsB "a" ∧
    (rollback (commit fsB stCD).2.1 (commit fsB stCD).2.2).1 "z" =
      (commit fsB stCD).2.1 "z" ∧
    (rollback (commit fsB stCD).2.1 (commit fsB stCD).2.2).2 = initVFT := by
  have h := rollback_postcommit_restores fsB
    [Cmd.create "a" "x", Cmd.delete "b"] stCD
    (commit fsB stCD).2.1 (commit fsB stCD).2.2 (by rfl) (by rfl)
  exact ⟨h.1 "b" (by rfl), h.1 "a" (by rfl), h.2.1 "z" (by rfl), h.2.2⟩

/-- C4 counterexample: after staging delete `a` then create `a` on a disk
where `a` exists, a further `createFile a` succeeds even though `a`
currently exists in the projection and the most recent queued operation for
`a` is a create, not a delete — the code only requires SOME delete anywhere
in the queue for the path. -/
theorem createFile_conflict_counterexample :
    fileExists fsA stDelCreate "a" = true ∧
    ((stDelCreate.operationQueue.filter (fun op => op.path == "a")).getLast?.map
        (fun op => op.type)) = some OpType.create ∧
    (createFile fsA stDelCreate "a" "z").1 = Except.ok () :=
  ⟨rfl, rfl, rfl⟩

/-- C4 amended: `createFile(path, content)` fails with the create-conflict
error exactly when (the path existed pre-transaction or currently exists per
`fileExists`) and no delete operation for that path occurs anywhere in the
queue; whenever it succeeds (in particular after a staged delete),
`readFile(path)` afterwards returns the new content. -/
theorem createFile_error_characterization (fs : FS) (st : VFT) (p c : String) :
    (createFile fs st p c).1 =
      (if (((alookup st.originalStates p).getD (mkOrig (fs p))).existed
            || fileExists fs st p) &&
          !((st.operationQueue.filter (fun op => op.path == p)).any
              (fun op => op.type == OpType.delete)) then
        Except.error ("Cannot create file " ++ p ++ ": file already exists")
      else Except.ok ()) ∧
    (∀ st', createFile fs st p c = (Except.ok (), st') →
      (readFile fs st' p).1 = Except.ok c) := by
  constructor
  · have e1 : (alookup (captureIfAbsent fs st p).originalStates p).getD
        { existed := false, content := none } =
        (alookup st.originalStates p).getD (mkOrig (fs p)) := by
      rw [captureIfAbsent_lookup]
      rfl
    have b1 : (OpType.create == OpType.create) = true := rfl
    have b2 : (OpType.create == OpType.modify) = false := rfl
    have b3 : (OpType.create == OpType.delete) = false := rfl
    have b4 : (OpType.create == OpType.append) = false := rfl
    have b5 : (OpType.create == OpType.prepend) = false := rfl
    simp only [createFile, addOperation, e1, fileExists_captureIfAbsent,
      captureIfAbsent_queue, b1, b2, b3, b4, b5, Bool.true_and,
      Bool.false_or, Bool.false_and, Bool.or_self, if_false,
      Bool.false_eq_true]
    cases hcond : (((alookup st.originalStates p).getD
        (mkOrig (fs p))).existed || fileExists fs st p) &&
        !((st.operationQueue.filter (fun op => op.path == p)).any
            (fun op => op.type == OpType.delete)) <;>
      simp [hcond]
  · intro st' h
    have hs := addOperation_ok_state fs st p .create (some c) st' h
    rw [hs]
    simp [readFile, updateLatestContent, alookup_aset_self, applyOp]

/-- C4 amended witness: after a staged delete of the existing `a`,
`createFile a y` succeeds and `readFile a` yields `y`. -/
theorem createFile_error_characterization_witness :
    (createFile fsA stDel "a" "y").1 = Except.ok () ∧
    (readFile fsA (createFile fsA stDel "a" "y").2 "a").1 = Except.ok "y" := by
  have h := createFile_error_characterization fsA stDel "a" "y"
  refine ⟨?_, h.2 (createFile fsA stDel "a" "y").2 (by rfl)⟩
  rw [h.1]
  rfl

/-- C8 counterexample: after staging create `a` and delete `b`, the staged
kinds are create and delete and the projection holds both paths, yet the
export lists only `a` and labels it `modify`. -/
theorem toFsUpdates_kind_counterexample :
    (stCD.operationQueue.map (fun op => op.type)) =
      [OpType.create, OpType.delete] ∧
    akeys stCD.latestContent = ["a", "b"] ∧
    (toFsUpdates stCD).map (fun f => f.path) = ["a"] ∧
    (toFsUpdates stCD).map (fun f => f.type) = [FsUpdateKind.modify] :=
  ⟨rfl, rfl, rfl, rfl⟩

/-- C8 amended: `toFsUpdates` serializes exactly the projection entries with
`exists=true`: each exported entry carries the UTF-8 bytes of that path's
projected content and the constant kind `modify` (irrespective of the staged
operations), and every `exists=true` projection entry is exported. -/
theorem toFsUpdates_characterization (st : VFT) :
    (∀ f, f ∈ toFsUpdates st →
      f.type = FsUpdateKind.modify ∧
      ∃ s, (f.path, s) ∈ st.latestContent ∧ s.exists_ = true ∧
        f.content = s.content.toUTF8.toList) ∧
    (∀ p s, (p, s) ∈ st.latestContent → s.exists_ = true →
      ({ path := p, content := s.content.toUTF8.toList,
         type := FsUpdateKind.modify } : FsUpdateFile) ∈ toFsUpdates st) := by
  constructor
  · intro f hf
    simp only [toFsUpdates, List.mem_map, List.mem_filter] at hf
    obtain ⟨ps, ⟨hmem, hex⟩, rfl⟩ := hf
    exact ⟨rfl, ps.2, by simpa using hmem, by simpa using hex, rfl⟩
  · intro p s hm hex
    simp only [toFsUpdates, List.mem_map, List.mem_filter]
    exact ⟨(p, s), ⟨hm, by simpa using hex⟩, rfl⟩

/-- C8 amended witness: the created `a` is exported with its UTF-8 bytes
and kind `modify`. -/
theorem toFsUpdates_characterization_witness :
    ({ path := "a", content := ("x" : String).toUTF8.toList,
       type := FsUpdateKind.modify } : FsUpdateFile) ∈ toFsUpdates stCD :=
  (toFsUpdates_characterization stCD).2 "a"
    { content := "x", exists_ := true } (by decide) (by rfl)

/-- C9: reading pollutes the commit set: `readFile` on a never-staged path
caches the path in the projection, and a subsequent commit — against any
disk — writes that path back with the content that was read, even though no
operation was ever staged for it. -/
theorem readFile_pollutes_commit_set (fs fs2 : FS) (st : VFT) (p c : String)
    (hnc : alookup st.latestContent p = none)
    (hfs : fs p = some c)
    (hnod : (akeys st.latestContent).Nodup)
    (hcom : st.isCommitted = false) :
    (readFile fs st p).1 = Except.ok c ∧
    alookup (readFile fs st p).2.latestContent p =
      some { content := c, exists_ := true } ∧
    (commit fs2 (readFile fs st p).2).1 = Except.ok () ∧
    (commit fs2 (readFile fs st p).2).2.1 p = some c := by
  have hrf : readFile fs st p = (Except.ok c,
      { st with latestContent := aset st.latestContent p (CurrentFileState.mk c true) }) := by
    simp [readFile, hnc, hfs]
  rw [hrf]
  refine ⟨rfl, alookup_aset_self _ _ _, ?_, ?_⟩
  · simp [commit, hcom]
  · simp only [commit, hcom, Bool.false_eq_true, if_false]
    rw [commitWrites_mem fs2 _ p { content := c, exists_ := true }
      (akeys_aset_nodup _ _ _ hnod)
      (alookup_some_mem (alookup_aset_self _ _ _))]
    rfl

/-- C9 witness: after merely reading `a` (content `x`), committing against
an empty disk writes `a` with `x`. -/
theorem readFile_pollutes_commit_set_witness :
    (commit fsEmpty (readFile fsA initVFT "a").2).2.1 "a" = some "x" :=
  (readFile_pollutes_commit_set fsA fsEmpty initVFT "a" "x" (by rfl)
    (by rfl) (by decide) (by rfl)).2.2.2

/-- C10: original-state capture precedes validation: a staging call that
fails validation leaves the queue, projection, counter and committed flag
unchanged, but the path's original state is (still) captured, the path is
reported by `getTrackedFiles`, and a post-commit rollback rewrites the path
from that captured state. -/
theorem capture_precedes_validation (fs : FS) (st : VFT) (p : String)
    (t : OpType) (c : Option String) (e : String) (st' : VFT)
    (h : addOperation fs st p t c = (Except.error e, st')) :
    st'.operationQueue = st.operationQueue ∧
    st'.latestContent = st.latestContent ∧
    st'.operationCounter = st.operationCounter ∧
    st'.isCommitted = st.isCommitted ∧
    alookup st'.originalStates p =
      some ((alookup st.originalStates p).getD (mkOrig (fs p))) ∧
    p ∈ getTrackedFiles st' ∧
    (∀ fs2, (akeys st'.originalStates).Nodup →
      (rollback fs2 { st' with isCommitted := true }).1 p =
        (if ((alookup st.originalStates p).getD (mkOrig (fs p))).existed then
          some (((alookup st.originalStates p).getD
            (mkOrig (fs p))).content.getD "")
        else none)) := by
  have hs := addOperation_error_state fs st p t c e st' h
  subst hs
  refine ⟨captureIfAbsent_queue _ _ _, captureIfAbsent_lc _ _ _,
    captureIfAbsent_counter _ _ _, captureIfAbsent_committed _ _ _,
    captureIfAbsent_lookup _ _ _, ?_, ?_⟩
  · by_contra hmem
    have hnone := (alookup_eq_none_iff
      (captureIfAbsent fs st p).originalStates p).mpr hmem
    rw [captureIfAbsent_lookup] at hnone
    cases hnone
  · intro fs2 hnod
    have hro : rollback fs2
        { captureIfAbsent fs st p with isCommitted := true } =
        (restoreWrites fs2 (captureIfAbsent fs st p).originalStates,
         initVFT) := by
      simp [rollback]
    rw [hro]
    exact restoreWrites_mem fs2 _ p _ hnod
      (alookup_some_mem (captureIfAbsent_lookup fs st p))

/-- C10 witness: deleting the missing path `nope` fails with the
missing-file error, yet `nope` is tracked and a post-commit rollback
unlinks it. -/
theorem capture_precedes_validation_witness :
    (deleteFile fsEmpty initVFT "nope").1 =
      Except.error "Cannot delete file nope: file does not exist" ∧
    "nope" ∈ getTrackedFiles (deleteFile fsEmpty initVFT "nope").2 ∧
    (rollback fsA
      { (deleteFile fsEmpty initVFT "nope").2 with isCommitted := true }).1
      "nope" = none := by
  have h := capture_precedes_validation fsEmpty initVFT "nope" OpType.delete
    none "Cannot delete file nope: file does not exist"
    (deleteFile fsEmpty initVFT "nope").2 (by rfl)
  refine ⟨by rfl, h.2.2.2.2.2.1, ?_⟩
  have h2 := h.2.2.2.2.2.2 fsA (by decide)
  rw [h2]
  rfl

end VFTree
